import Mathlib

/-!
Verification of the `GitStorage` class of `src/github-storage.ts`.

The class is a thin facade over a remote REST API.  We embed it shallowly:

* the remote content-read endpoint (`octokit.repos.getContent`) is an oracle
  `Remote : GetContentReq → Except RemoteErr ContentData`;
* every method becomes a pure function of the handle, the oracle and its
  arguments, returning the request records the method hands to the API
  (exactly the fields the TypeScript code passes, including the field
  literally named `useBranch` in `saveFile`/`deleteFile`) together with the
  method's result;
* JavaScript truthiness of optional strings (`undefined` and `""` are falsy)
  is modelled explicitly by `jsTruthy` / `jsOr`, since the source uses
  `branch || this.defaultBranch`, `!sha`, `sha ? … : …` and
  `options?.defaultBranch || 'main'`.
-/

/-- JS truthiness of an optional string: `undefined` and `""` are falsy,
every other string is truthy. -/
def jsTruthy : Option String → Bool
  | none => false
  | some s => s != ""

/-- Models the JS expression `a || d` where `a` is an optional string:
`undefined` and `""` fall through to the default `d`. -/
def jsOr (a : Option String) (d : String) : String :=
  match a with
  | none => d
  | some s => if s = "" then d else s

/-- The optional constructor options object `{ token?, defaultBranch? }`. -/
structure GitStorageOptions where
  token : Option String := none
  defaultBranch : Option String := none
  deriving DecidableEq

/-- The handle state of the `GitStorage` class: owner, repo, optional token
and the mutable default branch. -/
structure GitStorage where
  owner : String
  repo : String
  token : Option String
  defaultBranch : String
  deriving DecidableEq

/-- The constructor: `this.defaultBranch = options?.defaultBranch || 'main'`,
`this.token = options?.token`. -/
def mkGitStorage (owner repo : String) (options : Option GitStorageOptions) : GitStorage :=
  { owner := owner
    repo := repo
    token := options.bind (·.token)
    defaultBranch := jsOr (options.bind (·.defaultBranch)) "main" }

/-- `setDefaultBranch(branch)`: `if (!branch) throw new Error('Branch name
cannot be empty'); this.defaultBranch = branch`.  The pair returns the
outcome together with the handle state after the call (unchanged when the
guard throws, because the assignment is never reached). -/
def setDefaultBranch (st : GitStorage) (branch : String) : Except String Unit × GitStorage :=
  if branch = "" then (Except.error "Branch name cannot be empty", st)
  else (Except.ok (), { st with defaultBranch := branch })

/-- A file metadata object inside a folder-listing response. -/
structure FileEntry where
  name : String
  path : String
  sha : String
  deriving DecidableEq

/-- The payload of a successful `getContent` response: either an array of
entries (a folder listing) or a single non-array entry carrying `sha`,
`encoding` and `content` fields. -/
inductive ContentData where
  | listing (entries : List FileEntry)
  | file (sha : String) (encoding : String) (content : String)
  deriving DecidableEq

/-- Failure causes of a remote read; the source handles them uniformly, the
spec distinguishes them in prose. -/
inductive RemoteErr where
  | notFound
  | permissionDenied
  | networkFailure
  | other (msg : String)
  deriving DecidableEq

/-- The record the code passes to `octokit.repos.getContent`. -/
structure GetContentReq where
  owner : String
  repo : String
  path : String
  ref : String
  deriving DecidableEq

/-- The remote content-read endpoint, as an oracle. -/
abbrev Remote := GetContentReq → Except RemoteErr ContentData

/-- Models the JS access `data?.sha`: an array has no `sha` property, a
single entry yields its `sha` field. -/
def ContentData.shaField : ContentData → Option String
  | .listing _ => none
  | .file sha _ _ => some sha

/-- Models the JS access `data.encoding` (an array has no `encoding`
property). -/
def ContentData.encodingField : ContentData → Option String
  | .listing _ => none
  | .file _ enc _ => some enc

/-- The read request issued by `getFileSha`: `ref: branch || this.defaultBranch`. -/
def getFileShaReq (st : GitStorage) (path : String) (branch : Option String) : GetContentReq :=
  { owner := st.owner, repo := st.repo, path := path, ref := jsOr branch st.defaultBranch }

/-- `getFileSha(path, branch?)`: a single read wrapped in `try … catch`;
any failure becomes `undefined`, a success yields `data?.sha`. -/
def getFileSha (st : GitStorage) (remote : Remote) (path : String) (branch : Option String) :
    Option String :=
  match remote (getFileShaReq st path branch) with
  | Except.error _ => none
  | Except.ok data => data.shaField

/-- The read request issued by `listFiles(folder, branch = 'main')`: the
default parameter is the literal `'main'`, not `this.defaultBranch`. -/
def listFilesReq (st : GitStorage) (folder : String) (branch : Option String) : GetContentReq :=
  { owner := st.owner, repo := st.repo, path := folder, ref := branch.getD "main" }

/-- `listFiles(folder, branch = 'main')`:
`Array.isArray(res.data) ? res.data : []`; remote failures propagate. -/
def listFiles (st : GitStorage) (remote : Remote) (folder : String) (branch : Option String) :
    Except RemoteErr (List FileEntry) :=
  match remote (listFilesReq st folder branch) with
  | Except.error e => Except.error e
  | Except.ok (ContentData.listing entries) => Except.ok entries
  | Except.ok (ContentData.file _ _ _) => Except.ok []

/-- The read request issued by `downloadFile(path, branch = 'main')`: like
`listFiles`, the default parameter is the literal `'main'`. -/
def downloadFileReq (st : GitStorage) (path : String) (branch : Option String) : GetContentReq :=
  { owner := st.owner, repo := st.repo, path := path, ref := branch.getD "main" }

/-- `downloadFile(path, branch = 'main')`:
`data.encoding === 'base64' ? data : null`; remote failures propagate. -/
def downloadFile (st : GitStorage) (remote : Remote) (path : String) (branch : Option String) :
    Except RemoteErr (Option ContentData) :=
  match remote (downloadFileReq st path branch) with
  | Except.error e => Except.error e
  | Except.ok data => Except.ok (if data.encodingField = some "base64" then some data else none)

/-- The record the code passes to `octokit.repos.createOrUpdateFileContents`.
The last field is literally named `useBranch` in the source (not `branch`). -/
structure WriteReq where
  owner : String
  repo : String
  path : String
  message : String
  content : String
  sha : Option String
  useBranch : String
  deriving DecidableEq

/-- `saveFile(base64, path, message?, branch?, skipCheck = false)`.  Returns
the list of probe read requests issued (empty or a single one) and the single
write request handed to the API.  The commit message is the caller's message
when not nullish, otherwise "Update " or "Create " followed by the path,
chosen by the truthiness of the probed sha; the `sha` field is spread into
the request only when `sha` is truthy. -/
def saveFile (st : GitStorage) (remote : Remote) (base64 : String) (path : String)
    (message : Option String) (branch : Option String) (skipCheck : Bool) :
    List GetContentReq × WriteReq :=
  let useBranch := jsOr branch st.defaultBranch
  let sha : Option String := if skipCheck then none else getFileSha st remote path branch
  let probes : List GetContentReq := if skipCheck then [] else [getFileShaReq st path branch]
  let commitMsg : String :=
    match message with
    | some m => m
    | none => (if jsTruthy sha then "Update " else "Create ") ++ path
  (probes,
   { owner := st.owner, repo := st.repo, path := path, message := commitMsg,
     content := base64, sha := if jsTruthy sha then sha else none, useBranch := useBranch })

/-- The record the code passes to `octokit.repos.deleteFile`; again the last
field is literally named `useBranch` in the source. -/
structure DeleteReq where
  owner : String
  repo : String
  path : String
  message : String
  sha : String
  useBranch : String
  deriving DecidableEq

/-- The confirmation record `{ path, deleted: true }`. -/
structure DeleteResult where
  path : String
  deleted : Bool
  deriving DecidableEq

/-- `deleteFile(path, branch?)`: probes for the sha, throws
`'File not found'` when `!sha` (i.e. the probe yields `undefined` or `""`),
otherwise issues one delete request and returns `{ path, deleted: true }`. -/
def deleteFile (st : GitStorage) (remote : Remote) (path : String) (branch : Option String) :
    Except String (DeleteReq × DeleteResult) :=
  let useBranch := jsOr branch st.defaultBranch
  match getFileSha st remote path branch with
  | none => Except.error "File not found"
  | some s =>
    if s = "" then Except.error "File not found"
    else Except.ok
      ({ owner := st.owner, repo := st.repo, path := path,
         message := "Delete " ++ path, sha := s, useBranch := useBranch },
       { path := path, deleted := true })

/-!
Base64 glue.  `fileToBase64` models the browser path
`FileReader.readAsDataURL` + `result.split(',')[1]`: the reader yields the
data URL `data:` ++ mime ++ `;base64,` ++ btoa-style payload of the file's
bytes (standard alphabet, padded, no line breaks), and the method takes the
segment between the first and second comma.  `base64ToBlob` models
`atob(base64.replace(/\r?\n/g, ''))` followed by `charCodeAt` into a byte
array: a forgiving base64 decode of the input with newlines removed.
Bytes are `Nat`s; the claims constrain them below 256.
-/

/-- The standard base64 alphabet used by `btoa`/`atob`. -/
def b64chars : List Char :=
  ['A', 'B', 'C', 'D', 'E', 'F', 'G', 'H', 'I', 'J', 'K', 'L', 'M',
   'N', 'O', 'P', 'Q', 'R', 'S', 'T', 'U', 'V', 'W', 'X', 'Y', 'Z',
   'a', 'b', 'c', 'd', 'e', 'f', 'g', 'h', 'i', 'j', 'k', 'l', 'm',
   'n', 'o', 'p', 'q', 'r', 's', 't', 'u', 'v', 'w', 'x', 'y', 'z',
   '0', '1', '2', '3', '4', '5', '6', '7', '8', '9', '+', '/']

/-- The alphabet character of a sextet. -/
def encodeChar (n : Nat) : Char := b64chars.getD n '='

/-- The sextet of an alphabet character (junk for characters outside the
alphabet; such inputs make `atob` throw and are outside the claims). -/
def decodeChar (c : Char) : Nat := b64chars.indexOf c

/-- Standard padded base64 of a byte list, three bytes to four characters,
as produced by `btoa` and by `readAsDataURL` (no line breaks). -/
def b64encode : List Nat → List Char
  | [] => []
  | [a] => [encodeChar (a / 4), encodeChar (a % 4 * 16), '=', '=']
  | [a, b] => [encodeChar (a / 4), encodeChar (a % 4 * 16 + b / 16),
               encodeChar (b % 16 * 4), '=']
  | a :: b :: c :: rest =>
    encodeChar (a / 4) :: encodeChar (a % 4 * 16 + b / 16) ::
    encodeChar (b % 16 * 4 + c / 64) :: encodeChar (c % 64) :: b64encode rest

/-- The forgiving base64 decode implemented by `atob`, restricted to the
well-formed inputs the claims exercise: four characters yield three bytes,
trailing `=` padding (or a short final group) yields fewer. -/
def b64decode : List Char → List Nat
  | c1 :: c2 :: c3 :: c4 :: rest =>
    if c3 = '=' then
      [decodeChar c1 * 4 + decodeChar c2 / 16]
    else if c4 = '=' then
      [decodeChar c1 * 4 + decodeChar c2 / 16,
       decodeChar c2 % 16 * 16 + decodeChar c3 / 4]
    else
      (decodeChar c1 * 4 + decodeChar c2 / 16) ::
      (decodeChar c2 % 16 * 16 + decodeChar c3 / 4) ::
      (decodeChar c3 % 4 * 64 + decodeChar c4) :: b64decode rest
  | [c1, c2] => [decodeChar c1 * 4 + decodeChar c2 / 16]
  | [c1, c2, c3] => [decodeChar c1 * 4 + decodeChar c2 / 16,
                     decodeChar c2 % 16 * 16 + decodeChar c3 / 4]
  | _ => []

/-- Models `replace(/\r?\n/g, '')`: every `\n` is removed, together with a
`\r` immediately preceding it; a lone `\r` stays. -/
def stripNewlines : List Char → List Char
  | [] => []
  | [c] => if c = '\n' then [] else [c]
  | c :: c2 :: rest =>
    if c = '\r' ∧ c2 = '\n' then stripNewlines rest
    else if c = '\n' then stripNewlines (c2 :: rest)
    else c :: stripNewlines (c2 :: rest)

/-- The characters of `split(',')` after the first comma (the suffix when no
second comma follows). -/
def afterComma : List Char → List Char
  | [] => []
  | c :: rest => if c = ',' then rest else afterComma rest

/-- The characters of a list up to (excluding) the first comma. -/
def upToComma : List Char → List Char
  | [] => []
  | c :: rest => if c = ',' then [] else c :: upToComma rest

/-- `fileToBase64(file)`: the reader's data URL result split at commas,
taking index 1 (the segment between the first and the second comma). -/
def fileToBase64 (mimeType : List Char) (fileBytes : List Nat) : List Char :=
  upToComma (afterComma
    (("data:".toList ++ mimeType ++ ";base64".toList) ++ ',' :: b64encode fileBytes))

/-- `base64ToBlob(base64)`: `atob(base64.replace(/\r?\n/g, ''))`, each
character code stored into a byte array. -/
def base64ToBlob (base64 : List Char) : List Nat :=
  b64decode (stripNewlines base64)

/-- A case analysis on lists in the three-element chunks `b64encode` uses. -/
def chunk3Cases {P : List Nat → Prop} (h0 : P []) (h1 : ∀ a, P [a]) (h2 : ∀ a b, P [a, b])
    (h3 : ∀ a b c rest, P rest → P (a :: b :: c :: rest)) : ∀ l, P l
  | [] => h0
  | [a] => h1 a
  | [a, b] => h2 a b
  | a :: b :: c :: rest => h3 a b c rest (chunk3Cases h0 h1 h2 h3 rest)

theorem decodeChar_encodeChar : ∀ n, n < 64 → decodeChar (encodeChar n) = n := by decide

theorem encodeChar_ne_pad : ∀ n, n < 64 → encodeChar n ≠ '=' := by decide

theorem b64chars_length : b64chars.length = 64 := by decide

theorem encodeChar_mem (n : Nat) : encodeChar n ∈ '=' :: b64chars := by
  by_cases h : n < 64
  · have hlt : n < b64chars.length := by rw [b64chars_length]; exact h
    have : encodeChar n ∈ b64chars := by
      unfold encodeChar
      rw [List.getD_eq_getElem b64chars '=' hlt]
      exact List.getElem_mem hlt
    exact List.mem_cons_of_mem _ this
  · have hle : b64chars.length ≤ n := by rw [b64chars_length]; omega
    have : encodeChar n = '=' := List.getD_eq_default b64chars '=' hle
    rw [this]
    exact List.mem_cons_self _ _

theorem b64encode_chars : ∀ (X : List Nat), ∀ c ∈ b64encode X, c ∈ '=' :: b64chars := by
  intro X
  induction X using chunk3Cases with
  | h0 => intro c hc; simp [b64encode] at hc
  | h1 a =>
    intro c hc
    simp only [b64encode, List.mem_cons, List.not_mem_nil, or_false] at hc
    rcases hc with h | h | h | h
    · exact h ▸ encodeChar_mem _
    · exact h ▸ encodeChar_mem _
    · exact h ▸ List.mem_cons_self _ _
    · exact h ▸ List.mem_cons_self _ _
  | h2 a b =>
    intro c hc
    simp only [b64encode, List.mem_cons, List.not_mem_nil, or_false] at hc
    rcases hc with h | h | h | h
    · exact h ▸ encodeChar_mem _
    · exact h ▸ encodeChar_mem _
    · exact h ▸ encodeChar_mem _
    · exact h ▸ List.mem_cons_self _ _
  | h3 a b c rest ih =>
    intro x hx
    simp only [b64encode, List.mem_cons] at hx
    rcases hx with h | h | h | h | h
    · exact h ▸ encodeChar_mem _
    · exact h ▸ encodeChar_mem _
    · exact h ▸ encodeChar_mem _
    · exact h ▸ encodeChar_mem _
    · exact ih x h

theorem b64encode_no_comma (X : List Nat) : ',' ∉ b64encode X := by
  intro h
  have hmem := b64encode_chars X ',' h
  revert hmem
  decide

theorem b64encode_no_newline (X : List Nat) : '\n' ∉ b64encode X := by
  intro h
  have hmem := b64encode_chars X '\n' h
  revert hmem
  decide

theorem upToComma_eq_self : ∀ (l : List Char), ',' ∉ l → upToComma l = l := by
  intro l
  induction l with
  | nil => intro _; rfl
  | cons c rest ih =>
    intro h
    have hc : c ≠ ',' := fun hh => h (hh ▸ List.mem_cons_self c rest)
    have hr : ',' ∉ rest := fun hm => h (List.mem_cons_of_mem c hm)
    simp [upToComma, hc, ih hr]

theorem afterComma_append : ∀ (l r : List Char), ',' ∉ l → afterComma (l ++ ',' :: r) = r := by
  intro l r
  induction l with
  | nil => intro _; simp [afterComma]
  | cons c rest ih =>
    intro h
    have hc : c ≠ ',' := fun hh => h (hh ▸ List.mem_cons_self c rest)
    have hr : ',' ∉ rest := fun hm => h (List.mem_cons_of_mem c hm)
    simp [afterComma, hc, ih hr]

theorem stripNewlines_id : ∀ (l : List Char), '\n' ∉ l → stripNewlines l = l := by
  intro l
  induction l with
  | nil => intro _; rfl
  | cons c rest ih =>
    intro h
    have hc : c ≠ '\n' := fun hh => h (hh ▸ List.mem_cons_self c rest)
    have hr : '\n' ∉ rest := fun hm => h (List.mem_cons_of_mem c hm)
    cases rest with
    | nil => simp [stripNewlines, hc]
    | cons c2 rest2 =>
      have hc2 : c2 ≠ '\n' := fun hh => hr (hh ▸ List.mem_cons_self c2 rest2)
      have hno : ¬(c = '\r' ∧ c2 = '\n') := fun hp => hc2 hp.2
      simp [stripNewlines, hc, hno, ih hr]

theorem b64decode_b64encode : ∀ (X : List Nat), (∀ b ∈ X, b < 256) →
    b64decode (b64encode X) = X := by
  intro X
  induction X using chunk3Cases with
  | h0 => intro _; rfl
  | h1 a =>
    intro h
    have ha : a < 256 := h a (by simp)
    have e1 : decodeChar (encodeChar (a / 4)) = a / 4 :=
      decodeChar_encodeChar _ (by omega)
    have e2 : decodeChar (encodeChar (a % 4 * 16)) = a % 4 * 16 :=
      decodeChar_encodeChar _ (by omega)
    simp [b64encode, b64decode, e1, e2]
    omega
  | h2 a b =>
    intro h
    have ha : a < 256 := h a (by simp)
    have hb : b < 256 := h b (by simp)
    have e1 : decodeChar (encodeChar (a / 4)) = a / 4 :=
      decodeChar_encodeChar _ (by omega)
    have e2 : decodeChar (encodeChar (a % 4 * 16 + b / 16)) = a % 4 * 16 + b / 16 :=
      decodeChar_encodeChar _ (by omega)
    have e3 : decodeChar (encodeChar (b % 16 * 4)) = b % 16 * 4 :=
      decodeChar_encodeChar _ (by omega)
    have n3 : encodeChar (b % 16 * 4) ≠ '=' := encodeChar_ne_pad _ (by omega)
    simp [b64encode, b64decode, n3, e1, e2, e3]
    constructor <;> omega
  | h3 a b c rest ih =>
    intro h
    have ha : a < 256 := h a (by simp)
    have hb : b < 256 := h b (by simp)
    have hc : c < 256 := h c (by simp)
    have hrest : ∀ x ∈ rest, x < 256 := fun x hx => h x (by simp [hx])
    have e1 : decodeChar (encodeChar (a / 4)) = a / 4 :=
      decodeChar_encodeChar _ (by omega)
    have e2 : decodeChar (encodeChar (a % 4 * 16 + b / 16)) = a % 4 * 16 + b / 16 :=
      decodeChar_encodeChar _ (by omega)
    have e3 : decodeChar (encodeChar (b % 16 * 4 + c / 64)) = b % 16 * 4 + c / 64 :=
      decodeChar_encodeChar _ (by omega)
    have e4 : decodeChar (encodeChar (c % 64)) = c % 64 :=
      decodeChar_encodeChar _ (by omega)
    have n3 : encodeChar (b % 16 * 4 + c / 64) ≠ '=' := encodeChar_ne_pad _ (by omega)
    have n4 : encodeChar (c % 64) ≠ '=' := encodeChar_ne_pad _ (by omega)
    simp [b64encode, b64decode, n3, n4, e1, e2, e3, e4, ih hrest]
    refine ⟨by omega, by omega, by omega⟩

theorem fileToBase64_eval (mime : List Char) (X : List Nat) (hm : ',' ∉ mime) :
    fileToBase64 mime X = b64encode X := by
  unfold fileToBase64
  have hd : ',' ∉ "data:".toList := by decide
  have hb : ',' ∉ ";base64".toList := by decide
  have h1 : ',' ∉ ("data:".toList ++ mime ++ ";base64".toList) := by
    intro hmem
    rcases List.mem_append.mp hmem with hmem | hmem
    · rcases List.mem_append.mp hmem with hmem | hmem
      · exact hd hmem
      · exact hm hmem
    · exact hb hmem
  rw [afterComma_append _ _ h1, upToComma_eq_self _ (b64encode_no_comma X)]

/-!
URL parsing.  `getPathFromDownloadUrl` builds the regular expression
`https://raw\.githubusercontent\.com/OWNER/REPO/[^/]+/(.+)` (owner and repo
interpolated; the escaped dots are literal), runs an unanchored leftmost
`url.match`, and returns `match[1].split('?')[0]` (or `null` on no match).
We embed the matcher specialised to this pattern shape: a literal piece,
then one or more non-slash characters and a slash, then a greedy capture of
one or more characters matchable by `.` (anything but a line terminator).
Because the character class `[^/]` cannot match `/`, the engine never
backtracks on this pattern, so the specialised matcher is exact.  The
embedding treats the interpolated owner and repo as literal text, which is
exact whenever they contain no regex metacharacters (as in the claims).
-/

/-- JS regex `.`: any character except the line terminators. -/
def isDotChar (c : Char) : Bool :=
  c != '\n' && c != '\r' && c != ' ' && c != ' '

/-- Greedy `(.+)` at the end of a pattern: the maximal run of `.`-matchable
characters from this position. -/
def takeDotRun : List Char → List Char
  | [] => []
  | c :: rest => if isDotChar c then c :: takeDotRun rest else []

/-- Consume characters up to and including the first `/`; fails when there
is none. -/
def dropThroughSlash : List Char → Option (List Char)
  | [] => none
  | c :: rest => if c = '/' then some rest else dropThroughSlash rest

/-- Models `[^/]+/`: at least one non-slash character, then a slash. -/
def matchSegSlash : List Char → Option (List Char)
  | [] => none
  | c :: rest => if c = '/' then none else dropThroughSlash rest

/-- Whether the first list is an initial run of the second. -/
def listStartsWith : List Char → List Char → Bool
  | [], _ => true
  | _ :: _, [] => false
  | p :: ps, s :: ss => p == s && listStartsWith ps ss

/-- Attempt the pattern `LITERAL[^/]+/(.+)` at this position, yielding the
text of capture group 1. -/
def matchFrom (pat s : List Char) : Option (List Char) :=
  if listStartsWith pat s then
    match matchSegSlash (s.drop pat.length) with
    | none => none
    | some rest =>
      let cap := takeDotRun rest
      if cap = [] then none else some cap
  else none

/-- Leftmost unanchored match, like `url.match(regex)`. -/
def searchCapture (pat : List Char) : List Char → Option (List Char)
  | [] => matchFrom pat []
  | c :: rest =>
    match matchFrom pat (c :: rest) with
    | some cap => some cap
    | none => searchCapture pat rest

/-- `split('?')[0]`: the characters before the first `?`. -/
def takeUntilQuery : List Char → List Char
  | [] => []
  | c :: rest => if c = '?' then [] else c :: takeUntilQuery rest

/-- `getPathFromDownloadUrl(url)`: run the interpolated pattern over the url
and strip a trailing query from capture group 1. -/
def getPathFromDownloadUrl (st : GitStorage) (url : String) : Option String :=
  let pat := ("https://raw.githubusercontent.com/" ++ st.owner ++ "/" ++ st.repo ++ "/").toList
  match searchCapture pat url.toList with
  | none => none
  | some cap => some (String.mk (takeUntilQuery cap))

/-!
Concrete fixtures shared by the claims below: a handle configured for
owner `OWNER`, repo `REPO`, no token, default branch `main`, and oracles
returning a fixed single entry, a fixed listing, or a failure.
-/

/-- A handle for owner `OWNER` and repo `REPO` with default branch `main`. -/
def stMain : GitStorage :=
  { owner := "OWNER", repo := "REPO", token := none, defaultBranch := "main" }

/-- An oracle serving every path as a single base64 file entry with the
given sha. -/
def remoteSha (sha : String) : Remote :=
  fun _ => Except.ok (ContentData.file sha "base64" "QQ==")

/-- An oracle failing every read with a transient network failure. -/
def remoteFail : Remote :=
  fun _ => Except.error RemoteErr.networkFailure

/-- An oracle serving every path as a folder listing with the given
entries. -/
def remoteListing (entries : List FileEntry) : Remote :=
  fun _ => Except.ok (ContentData.listing entries)

/-- C1 counterexample: the claim as stated fails when the probe returns the
empty-string marker.  With a remote serving a file entry whose `sha` is
`""`, the probe returns the marker `""`, yet `saveFile` (no caller message,
`skipCheck = false`) issues a write whose commit message is `Create a.txt`
and which carries no marker, because the JS guard `sha ? … : …` treats the
empty string as absence. -/
theorem saveFile_empty_marker_cex :
    getFileSha stMain (remoteSha "") "a.txt" none = some "" ∧
    (saveFile stMain (remoteSha "") "QQ==" "a.txt" none none false).2.message = "Create a.txt" ∧
    (saveFile stMain (remoteSha "") "QQ==" "a.txt" none none false).2.sha = none :=
  ⟨rfl, rfl, rfl⟩

/-- C1 (amended): for every path and branch, `saveFile` with
`skipCheck = false` and no caller-supplied commit message first issues
exactly one probe read for the version marker; if the probe returns a
non-empty marker `m` the single write it issues has commit message
`Update ` ++ path and carries `m`, and if the probe returns no marker (or
the empty-string marker, which the code conflates with absence) the single
write has commit message `Create ` ++ path and carries no marker. -/
theorem saveFile_create_or_update (st : GitStorage) (remote : Remote) (base64 path : String)
    (branch : Option String) :
    (saveFile st remote base64 path none branch false).1 = [getFileShaReq st path branch] ∧
    (∀ m, getFileSha st remote path branch = some m → m ≠ "" →
      (saveFile st remote base64 path none branch false).2.message = "Update " ++ path ∧
      (saveFile st remote base64 path none branch false).2.sha = some m) ∧
    ((getFileSha st remote path branch = none ∨ getFileSha st remote path branch = some "") →
      (saveFile st remote base64 path none branch false).2.message = "Create " ++ path ∧
      (saveFile st remote base64 path none branch false).2.sha = none) := by
  refine ⟨rfl, ?_, ?_⟩
  · intro m hm hne
    simp [saveFile, hm, jsTruthy, hne]
  · intro h
    rcases h with h | h <;> simp [saveFile, h, jsTruthy]

/-- C1 witness: at the concrete fixture the probe yields the marker
`abc123` and the write is an update carrying it. -/
theorem saveFile_create_or_update_witness :
    (saveFile stMain (remoteSha "abc123") "QQ==" "f.txt" none none false).2.message =
      "Update " ++ "f.txt" ∧
    (saveFile stMain (remoteSha "abc123") "QQ==" "f.txt" none none false).2.sha =
      some "abc123" :=
  (saveFile_create_or_update stMain (remoteSha "abc123") "QQ==" "f.txt" none).2.1
    "abc123" rfl (by decide)

/-- C2 counterexample: with a remote serving a file entry whose `sha` is
`""`, the probe returns the marker `""`, yet `deleteFile` fails with the
not-found error instead of issuing a delete carrying that marker, because
the JS guard `!sha` treats the empty string as absence. -/
theorem deleteFile_empty_marker_cex :
    getFileSha stMain (remoteSha "") "a.txt" none = some "" ∧
    deleteFile stMain (remoteSha "") "a.txt" none = Except.error "File not found" :=
  ⟨rfl, rfl⟩

/-- C2 (amended): for every path, `deleteFile` fails with the not-found
error and issues no delete request exactly when the probe returns no marker
or the empty-string marker (which the code conflates with absence); when the
probe returns a non-empty marker `m`, it issues exactly one delete request
carrying `m` with the synthesized message `Delete ` ++ path and returns the
record with `deleted = true`. -/
theorem deleteFile_marker_spec (st : GitStorage) (remote : Remote) (path : String)
    (branch : Option String) :
    ((getFileSha st remote path branch = none ∨ getFileSha st remote path branch = some "") →
      deleteFile st remote path branch = Except.error "File not found") ∧
    (∀ m, getFileSha st remote path branch = some m → m ≠ "" →
      deleteFile st remote path branch = Except.ok
        ({ owner := st.owner, repo := st.repo, path := path,
           message := "Delete " ++ path, sha := m,
           useBranch := jsOr branch st.defaultBranch },
         { path := path, deleted := true })) := by
  constructor
  · intro h
    rcases h with h | h <;> simp [deleteFile, h]
  · intro m hm hne
    simp [deleteFile, hm, hne]

/-- C2 witness: at the concrete fixture the probe yields the marker
`abc123` and the delete request carries it. -/
theorem deleteFile_marker_spec_witness :
    deleteFile stMain (remoteSha "abc123") "f.txt" none = Except.ok
      ({ owner := "OWNER", repo := "REPO", path := "f.txt",
         message := "Delete " ++ "f.txt", sha := "abc123", useBranch := "main" },
       { path := "f.txt", deleted := true }) :=
  (deleteFile_marker_spec stMain (remoteSha "abc123") "f.txt" none).2 "abc123" rfl (by decide)

/-- C3 (code bug): the `defaultBranch` field is documented in the source as
the default branch to use if not specified in method calls, and
`getFileSha`, `saveFile` and `deleteFile` resolve an omitted branch to it;
but `listFiles` and `downloadFile` declare `branch = 'main'` as a literal
default parameter instead.  On a handle configured with default branch
`dev`, the reads issued by `listFiles` and `downloadFile` with the branch
omitted target `main`, not `dev`, while the probe read targets `dev`. -/
theorem listFiles_downloadFile_ignore_default_branch :
    ({ owner := "o", repo := "r", token := none, defaultBranch := "dev" } : GitStorage).defaultBranch = "dev" ∧
    (listFilesReq { owner := "o", repo := "r", token := none, defaultBranch := "dev" } "docs" none).ref = "main" ∧
    (downloadFileReq { owner := "o", repo := "r", token := none, defaultBranch := "dev" } "docs/a.txt" none).ref = "main" ∧
    (getFileShaReq { owner := "o", repo := "r", token := none, defaultBranch := "dev" } "docs/a.txt" none).ref = "dev" :=
  ⟨rfl, rfl, rfl, rfl⟩

/-- C4: `setDefaultBranch("")` fails with the invalid-argument error and
leaves the stored default branch unchanged; for every non-empty branch it
replaces the stored default, and a subsequent probe read that omits an
explicit branch targets the new default. -/
theorem setDefaultBranch_spec (st : GitStorage) (b p : String) :
    setDefaultBranch st "" = (Except.error "Branch name cannot be empty", st) ∧
    (b ≠ "" →
      (setDefaultBranch st b).1 = Except.ok () ∧
      ((setDefaultBranch st b).2).defaultBranch = b ∧
      getFileShaReq (setDefaultBranch st b).2 p none =
        { owner := st.owner, repo := st.repo, path := p, ref := b }) := by
  constructor
  · rfl
  · intro hb
    simp [setDefaultBranch, hb, getFileShaReq, jsOr]

/-- C4 witness: setting the default branch to `dev` succeeds and the next
probe with the branch omitted targets `dev`. -/
theorem setDefaultBranch_spec_witness :
    (setDefaultBranch stMain "dev").1 = Except.ok () ∧
    ((setDefaultBranch stMain "dev").2).defaultBranch = "dev" ∧
    getFileShaReq (setDefaultBranch stMain "dev").2 "p.txt" none =
      { owner := "OWNER", repo := "REPO", path := "p.txt", ref := "dev" } :=
  (setDefaultBranch_spec stMain "dev" "p.txt").2 (by decide)

/-- C5: `getFileSha` is a total function into an optional marker (it never
raises: the `try … catch` converts every failure into the not-found value):
whenever the remote read fails — for any reason, including genuine absence,
permission denial and transient network failure — it returns `none`, and
whenever the read resolves to a single file entry it returns that entry's
sha. -/
theorem getFileSha_total_spec (st : GitStorage) (remote : Remote) (path : String)
    (branch : Option String) :
    (∀ e, remote (getFileShaReq st path branch) = Except.error e →
      getFileSha st remote path branch = none) ∧
    (∀ sha enc content,
      remote (getFileShaReq st path branch) = Except.ok (ContentData.file sha enc content) →
      getFileSha st remote path branch = some sha) := by
  constructor
  · intro e he
    simp [getFileSha, he]
  · intro sha enc content hc
    simp [getFileSha, hc, ContentData.shaField]

/-- C5 witness: a failing read yields `none`, a single file entry yields its
sha. -/
theorem getFileSha_total_spec_witness :
    getFileSha stMain remoteFail "f.txt" none = none ∧
    getFileSha stMain (remoteSha "abc123") "f.txt" none = some "abc123" :=
  ⟨(getFileSha_total_spec stMain remoteFail "f.txt" none).1 RemoteErr.networkFailure rfl,
   (getFileSha_total_spec stMain (remoteSha "abc123") "f.txt" none).2 "abc123" "base64" "QQ==" rfl⟩

/-- C6: on the handle configured for owner `OWNER` and repo `REPO`,
`getPathFromDownloadUrl` extracts `folder/file.txt` from the raw-content
URL, strips a trailing `?token=XYZ` query from the same URL, and returns
the no-match value for URLs naming a different owner or a different repo. -/
theorem getPathFromDownloadUrl_spec :
    getPathFromDownloadUrl stMain
      "https://raw.githubusercontent.com/OWNER/REPO/main/folder/file.txt" =
      some "folder/file.txt" ∧
    getPathFromDownloadUrl stMain
      "https://raw.githubusercontent.com/OWNER/REPO/main/folder/file.txt?token=XYZ" =
      some "folder/file.txt" ∧
    getPathFromDownloadUrl stMain
      "https://raw.githubusercontent.com/OTHERUSER/REPO/main/folder/file.txt" = none ∧
    getPathFromDownloadUrl stMain
      "https://raw.githubusercontent.com/OWNER/OTHERREPO/main/folder/file.txt" = none := by
  refine ⟨by decide, by decide, by decide, by decide⟩

/-- C7: for every folder and branch, `listFiles` returns the parsed entries
when the remote responds with a list-shaped payload, and returns the empty
sequence — not an error and not a one-element sequence — when the remote
responds with a single non-list entry (for example a path that is a file,
not a folder). -/
theorem listFiles_shape_spec (st : GitStorage) (remote : Remote) (folder : String)
    (branch : Option String) :
    (∀ entries, remote (listFilesReq st folder branch) = Except.ok (ContentData.listing entries) →
      listFiles st remote folder branch = Except.ok entries) ∧
    (∀ sha enc content,
      remote (listFilesReq st folder branch) = Except.ok (ContentData.file sha enc content) →
      listFiles st remote folder branch = Except.ok []) := by
  constructor
  · intro entries he
    simp [listFiles, he]
  · intro sha enc content hc
    simp [listFiles, hc]

/-- C7 witness: a listing payload is returned as parsed, and a single-file
payload yields the empty sequence. -/
theorem listFiles_shape_spec_witness :
    listFiles stMain (remoteListing [{ name := "a.txt", path := "docs/a.txt", sha := "abc" }])
      "docs" none =
      Except.ok [{ name := "a.txt", path := "docs/a.txt", sha := "abc" }] ∧
    listFiles stMain (remoteSha "abc") "docs" none = Except.ok [] :=
  ⟨(listFiles_shape_spec stMain
      (remoteListing [{ name := "a.txt", path := "docs/a.txt", sha := "abc" }]) "docs" none).1
      [{ name := "a.txt", path := "docs/a.txt", sha := "abc" }] rfl,
   (listFiles_shape_spec stMain (remoteSha "abc") "docs" none).2 "abc" "base64" "QQ==" rfl⟩

/-- C8: for every byte sequence, decoding the payload produced by
`fileToBase64` via `base64ToBlob` yields exactly the original bytes; and
any string that differs from that payload only by embedded newline
sequences (its newline-stripped form equals the payload) also decodes to
the original bytes.  The mime type of the data URL is assumed free of
commas, as every browser-produced mime type is. -/
theorem base64_roundtrip_spec (mime : List Char) (X : List Nat)
    (hX : ∀ b ∈ X, b < 256) (hm : ',' ∉ mime) :
    base64ToBlob (fileToBase64 mime X) = X ∧
    (∀ s : List Char, stripNewlines s = fileToBase64 mime X → base64ToBlob s = X) := by
  have hfe : fileToBase64 mime X = b64encode X := fileToBase64_eval mime X hm
  constructor
  · unfold base64ToBlob
    rw [hfe, stripNewlines_id _ (b64encode_no_newline X)]
    exact b64decode_b64encode X hX
  · intro s hs
    unfold base64ToBlob
    rw [hs, hfe]
    exact b64decode_b64encode X hX

/-- C8 witness: the bytes 72, 105, 10 round-trip through encode and decode,
also when a newline is embedded in the base64 payload. -/
theorem base64_roundtrip_spec_witness :
    base64ToBlob (fileToBase64 "text/plain".toList [72, 105, 10]) = [72, 105, 10] ∧
    base64ToBlob ('\n' :: fileToBase64 "text/plain".toList [72, 105, 10]) = [72, 105, 10] :=
  ⟨(base64_roundtrip_spec "text/plain".toList [72, 105, 10] (by decide) (by decide)).1,
   (base64_roundtrip_spec "text/plain".toList [72, 105, 10] (by decide) (by decide)).2
     ('\n' :: fileToBase64 "text/plain".toList [72, 105, 10]) (by decide)⟩

/-- The handle states reachable through the class: a constructor call
followed by any number of `setDefaultBranch` calls.  These are the only
writes to the handle in the source; every other method is embedded as a
pure function of the handle that returns no updated handle. -/
inductive Reachable : GitStorage → Prop where
  | init (owner repo : String) (options : Option GitStorageOptions) :
      Reachable (mkGitStorage owner repo options)
  | set (st : GitStorage) (b : String) :
      Reachable st → Reachable (setDefaultBranch st b).2

theorem jsOr_ne_empty (a : Option String) {d : String} (hd : d ≠ "") : jsOr a d ≠ "" := by
  cases a with
  | none => exact hd
  | some s =>
    by_cases hs : s = ""
    · simpa [jsOr, hs] using hd
    · simp [jsOr, hs]

/-- C9: every reachable handle state has a non-empty stored default branch:
the constructor replaces an absent or empty `defaultBranch` option with
`main`, `setDefaultBranch` rejects the empty string before assigning, and
no other operation writes the field. -/
theorem handle_default_branch_nonempty (st : GitStorage) (h : Reachable st) :
    st.defaultBranch ≠ "" := by
  induction h with
  | init owner repo options =>
    simp only [mkGitStorage]
    exact jsOr_ne_empty _ (by decide)
  | set st b hst ih =>
    by_cases hb : b = ""
    · simpa [setDefaultBranch, hb] using ih
    · simp [setDefaultBranch, hb]

/-- C9 witness: a freshly constructed handle with no options has a
non-empty default branch. -/
theorem handle_default_branch_nonempty_witness :
    (mkGitStorage "OWNER" "REPO" none).defaultBranch ≠ "" :=
  handle_default_branch_nonempty (mkGitStorage "OWNER" "REPO" none)
    (Reachable.init "OWNER" "REPO" none)

/-- C10: a caller-supplied empty-string commit message is used verbatim —
the write's message is exactly `""` — while with an absent message the same
call synthesizes the Create/Update message: only a nullish message triggers
synthesis, because the source combines them with the nullish-coalescing
operator. -/
theorem saveFile_empty_message_verbatim (st : GitStorage) (remote : Remote)
    (base64 path : String) (branch : Option String) (skipCheck : Bool) :
    (saveFile st remote base64 path (some "") branch skipCheck).2.message = "" ∧
    (saveFile st remote base64 path none branch skipCheck).2.message =
      (if jsTruthy (if skipCheck then none else getFileSha st remote path branch)
       then "Update " else "Create ") ++ path :=
  ⟨rfl, rfl⟩
